import Mathlib

/-!
Shallow embedding of `src/src/memory.py` of jing-bi/streamem: the shared
frame topic (`SharedFrame`) with its metadata serialization, the
write/read coordination protocol over the four regions, the subscriber
registry and the per-subscriber wake semaphores.

Modelling conventions:
* byte regions are `List Nat` (each entry a byte value) or `List Char`
  (the 40-byte ASCII metadata region);
* machine integers are `Nat`/`Int` with explicit wraparound where the
  source can overflow (the `int32` reader counter, the `u64` timestamp);
* fallible Python operations (memoryview slice assignment with a length
  mismatch, `int.to_bytes` overflow, `int(...)` parse failure, unpacking
  `split` results, `getattr(np, ...)`) are modelled with `Option` or an
  explicit outcome type;
* semaphores are modelled by their counts; `acquire` on a zero count in
  the sequential embedding is the `blocked` outcome.
-/

namespace Streamem

/-- Embeds `numbers_sum` (memory.py lines 20-25): splits `tot` into `n`
integers that sum to `tot`, the first `tot % n` of them one larger.  The
source guards `tot <= 0 or n <= 0`; over `Nat` that guard is `= 0`. -/
def numbers_sum (tot n : Nat) : List Nat :=
  if tot = 0 ∨ n = 0 then []
  else List.replicate (tot % n) (tot / n + 1) ++ List.replicate (n - tot % n) (tot / n)

/-- Decimal rendering of a natural number, fuel-structural so that the
kernel can evaluate it: embeds Python `str(n)` for `n : int ≥ 0`.  The
fuel argument strictly decreases; `n` itself is always enough fuel. -/
def toDecAux : Nat → Nat → List Char
  | 0, _ => []
  | fuel + 1, n =>
    if n = 0 then []
    else toDecAux fuel (n / 10) ++ [Nat.digitChar (n % 10)]

/-- Embeds Python `str(n)` for a nonnegative integer. -/
def natToDec (n : Nat) : List Char :=
  if n = 0 then ['0'] else toDecAux n n

/-- Numeric value of a decimal digit character (its code point minus 48). -/
def charDigit (c : Char) : Nat := c.toNat - 48

/-- Embeds Python `int(s)` on the digit strings produced by `str`:
succeeds exactly on nonempty all-digit strings.  (Python `int` also
accepts signs and surrounding whitespace; the metadata shape fields
never contain those.) -/
def decToNat (l : List Char) : Option Nat :=
  if l = [] then none
  else if l.all Char.isDigit then
    some (l.foldl (fun a c => 10 * a + charDigit c) 0)
  else none

/-- Embeds `"x".join(map(str, shape))` from `_serialize`. -/
def joinShape : List Nat → List Char
  | [] => []
  | [n] => natToDec n
  | n :: rest => natToDec n ++ 'x' :: joinShape rest

/-- Embeds Python `str.ljust(w, pad)`: pad on the right up to width `w`. -/
def ljustL (l : List Char) (w : Nat) (pad : Char) : List Char :=
  l ++ List.replicate (w - l.length) pad

/-- Embeds Python `s.split(c)` on a one-character separator. -/
def splitOnChar (c : Char) : List Char → List (List Char)
  | [] => [[]]
  | a :: as =>
    match splitOnChar c as with
    | [] => [[]]
    | h :: t => if a = c then [] :: h :: t else (a :: h) :: t

/-- Embeds `map(int, sh.split("x"))` from `_deserialize`: every piece
must parse as a decimal integer. -/
def parseDims : List (List Char) → Option (List Nat)
  | [] => some []
  | s :: rest =>
    match decToNat s, parseDims rest with
    | some n, some t => some (n :: t)
    | _, _ => none

/-- Dtype names the spec's closed set admits. -/
def closedDtypeSet : List (List Char) :=
  ["uint8", "int16", "int32", "int64", "float32", "float64"].map String.toList

/-- Numpy scalar-type attribute names: `_deserialize` resolves the dtype
field by `getattr(np, name)`, which succeeds for every attribute of the
numpy module; this list models the scalar-type names among them (it is a
sufficient finite fragment: numpy exposes all of these). -/
def npAttrDtypes : List (List Char) :=
  ["uint8", "int16", "int32", "int64", "float32", "float64",
   "int8", "uint16", "uint32", "uint64", "float16",
   "complex64", "complex128", "bool_", "byte", "ubyte",
   "short", "ushort", "intc", "uintc", "longlong", "ulonglong",
   "half", "single", "double", "intp", "uintp"].map String.toList

/-- Whether `getattr(np, d)` succeeds in the model. -/
def npHasAttr (d : List Char) : Bool := npAttrDtypes.contains d

/-- Embeds `SharedFrame._serialize` (memory.py lines 149-157), the pure
content written into the 40-byte `mat` region (the surrounding
`mat_sem` acquire/release pair carries no data flow).  The region is 40
bytes (`_crea_mem(self.mat_name, 40)`), `fill_up_size = numbers_sum(40, 2)`,
and the memoryview slice assignment `self.mat[:] = bytes(...)` requires
the encoded string to be exactly 40 bytes, else it raises `ValueError`
(modelled as `none`).  All characters involved are one UTF-8 byte. -/
def serializeMeta (shape : List Nat) (dtype : List Char) : Option (List Char) :=
  let fill := numbers_sum 40 2
  let r := ljustL (joinShape shape) (fill.headD 0) '*'
    ++ '|' :: ljustL dtype (fill.getLastD 0 - 1) '*'
  if r.length = 40 then some r else none

/-- Embeds `SharedFrame._deserialize` (memory.py lines 159-167):
decode the region, delete every `*` (`str.replace("*", "")`), unpack the
split on `|` into exactly two parts, parse the first as `x`-separated
integers, and resolve the second with `getattr(np, ...)`.  Any failing
step (wrong number of parts, a non-integer dimension, an unknown numpy
attribute) raises in the source and is `none` here. -/
def deserializeMeta (m : List Char) : Option (List Nat × List Char) :=
  match splitOnChar '|' (m.filter (fun c => c != '*')) with
  | [sh, dt] =>
    match parseDims (splitOnChar 'x' sh) with
    | some dims => if npHasAttr dt then some (dims, dt) else none
    | none => none
  | _ => none

/-! ## The topic state machine -/

/-- Little-endian byte rendering, embeds `stm.to_bytes(8, "little")`
(the `k = 8` instance). -/
def toLEBytes : Nat → Nat → List Nat
  | 0, _ => []
  | k + 1, n => n % 256 :: toLEBytes k (n / 256)

/-- Embeds `int.from_bytes(b, "little")`. -/
def fromLEBytes (l : List Nat) : Nat :=
  l.foldr (fun b acc => b + 256 * acc) 0

/-- Signed 32-bit wraparound for the `np.int32` reader counter. -/
def wrap32 (x : Int) : Int := (x + 2 ^ 31) % 2 ^ 32 - 2 ^ 31

/-- State of one topic as `SharedFrame` keeps it: the four shared
regions (`ram` frame bytes, `stm` timestamp bytes, `cnt` reader counter;
the `mat` metadata region is handled by `serializeMeta`/`deserializeMeta`
and is never touched after init), the counts of the `ram` and `cnt`
region semaphores, and the registry mapping subscriber ids to wake
semaphore counts. -/
structure TopicState where
  name : String
  ram : List Nat
  stm : List Nat
  cnt : Int
  ramSem : Nat
  cntSem : Nat
  sems : List (String × Nat)

/-- Error raised inside `write`: the memoryview length mismatch the spec
calls `ShapeMismatch`, or `OverflowError` from `int.to_bytes`. -/
inductive WriteErr
  | shapeMismatch
  | overflow
deriving DecidableEq, Repr

/-- Outcome of a `write` call in the sequential embedding: blocked on a
zero semaphore, an error raised at some intermediate state, or success. -/
inductive WriteOutcome
  | blocked
  | err (e : WriteErr) (s : TopicState)
  | ok (s : TopicState)

/-- Fan-out step of `write` (memory.py lines 247-253) on the non-Darwin
(count-introspecting) platform branch: each registered wake semaphore
with a positive count is skipped, the others are released once. -/
def fanout (sems : List (String × Nat)) : List (String × Nat) :=
  sems.map fun kc => if 0 < kc.2 then kc else (kc.1, kc.2 + 1)

/-- Embeds `SharedFrame.write` (memory.py lines 242-253): acquire
`ram_sem`, assign the payload bytes into the frame region (raising
`ValueError` before any byte moves when the length differs), store the
little-endian timestamp (raising `OverflowError` at `to_bytes` when
`ts ≥ 2^64`, before the region is touched), release `ram_sem`, then run
the saturating fan-out over the registry snapshot. -/
def write (s : TopicState) (data : List Nat) (ts : Nat) : WriteOutcome :=
  if s.ramSem = 0 then .blocked
  else
    let s1 : TopicState := { s with ramSem := s.ramSem - 1 }
    if data.length ≠ s1.ram.length then .err .shapeMismatch s1
    else
      let s2 : TopicState := { s1 with ram := data }
      if 2 ^ 64 ≤ ts then .err .overflow s2
      else
        let s3 : TopicState := { s2 with stm := toLEBytes 8 ts }
        let s4 : TopicState := { s3 with ramSem := s3.ramSem + 1 }
        .ok { s4 with sems := fanout s4.sems }

/-- Events a `read` call performs, in program order; used to settle the
temporal claim about the reader-entry protocol. -/
inductive REvent
  | keyError
  | acquireWake
  | acquireCnt
  | incCnt
  | acquireFrame
  | releaseCnt
  | viewFrame
  | readStm
  | decCnt
  | releaseFrame
  | copyFrame
deriving DecidableEq, Repr, BEq

/-- Outcome of a `read` call in the sequential embedding. -/
inductive ReadOutcome
  | keyErr
  | blocked
  | ok (data : List Nat) (ts : Nat) (s : TopicState)

/-- Overwrite the count of one registered wake semaphore. -/
def setSem (sems : List (String × Nat)) (rid : String) (v : Nat) :
    List (String × Nat) :=
  sems.map fun kc => if kc.1 = rid then (kc.1, v) else kc

/-- Embeds `SharedFrame.read` (memory.py lines 255-278), paired with the
trace of protocol events in the order the source performs them.  Note
that `data = np.ndarray(..., buffer=self.ram)` on line 270 creates a
view (no bytes move: `viewFrame`); the bytes are copied only by
`data.copy()` inside the `return` expression on line 278 (`copyFrame`),
after both `cnt_sem.release()` and the conditional `ram_sem.release()`.
The second `cnt_sem.acquire()` immediately follows this thread's own
release, so sequentially it cannot block and is modelled as succeeding. -/
def read (s : TopicState) (rid : String) : ReadOutcome × List REvent :=
  match List.lookup rid s.sems with
  | none => (.keyErr, [.keyError])
  | some w =>
    if w = 0 then (.blocked, [])
    else
      let sa : TopicState := { s with sems := setSem s.sems rid (w - 1) }
      if sa.cntSem = 0 then (.blocked, [.acquireWake])
      else
        let sb : TopicState := { sa with cntSem := sa.cntSem - 1 }
        let c1 : Int := wrap32 (sb.cnt + 1)
        let sc : TopicState := { sb with cnt := c1 }
        if c1 = 1 ∧ sc.ramSem = 0 then
          (.blocked, [.acquireWake, .acquireCnt, .incCnt])
        else
          let sd : TopicState :=
            if c1 = 1 then { sc with ramSem := sc.ramSem - 1 } else sc
          let evA : List REvent := if c1 = 1 then [.acquireFrame] else []
          let se : TopicState := { sd with cntSem := sd.cntSem + 1 }
          let tsv : Nat := fromLEBytes se.stm
          let sf : TopicState := { se with cntSem := se.cntSem - 1 }
          let c2 : Int := wrap32 (sf.cnt - 1)
          let sg : TopicState := { sf with cnt := c2 }
          let sh2 : TopicState :=
            if c2 = 0 then { sg with ramSem := sg.ramSem + 1 } else sg
          let evR : List REvent := if c2 = 0 then [.releaseFrame] else []
          let si : TopicState := { sh2 with cntSem := sh2.cntSem + 1 }
          (.ok si.ram tsv si,
            [REvent.acquireWake, .acquireCnt, .incCnt] ++ evA
              ++ [.releaseCnt, .viewFrame, .readStm, .acquireCnt, .decCnt]
              ++ evR ++ [.releaseCnt, .copyFrame])

/-- Initial value of every semaphore `_crea_sem` returns (memory.py
lines 198-206): `Semaphore(name, O_CREX)` creates with count 0 (the
posix_ipc default `initial_value=0`) and `sem.release()` is then called
exactly once. -/
def semInitialValue : Nat := 0

/-- Count of a freshly created semaphore after `_crea_sem` returns. -/
def crea_sem : Nat := semInitialValue + 1

/-- Python dict assignment `self.sems[r_id] = v`: overwrite in place if
the key exists, else append. -/
def dictInsert (sems : List (String × Nat)) (rid : String) (v : Nat) :
    List (String × Nat) :=
  if (List.lookup rid sems).isSome then setSem sems rid v
  else sems ++ [(rid, v)]

/-- Embeds the publisher branch of `SharedFrame.signin` (memory.py lines
177-184): create the wake semaphore with `_crea_sem` and register it. -/
def signin (s : TopicState) (rid : String) : TopicState :=
  { s with sems := dictInsert s.sems rid crea_sem }

/-- Externally visible effects of a `signout` call: the name of the
semaphore unlinked, if any, and the control message sent, if any. -/
structure SignoutEffects where
  unlinked : Option String
  sent : Option (String × String)
deriving DecidableEq, Repr

/-- Embeds `SharedFrame.signout` (memory.py lines 186-196): under the
registry lock, only when `r_name` is a registry key, unlink its wake
semaphore, send the signout control message, and delete the entry; an
unknown id leaves everything untouched, and the enclosing
`try/except: pass` lets no error reach the caller in either case. -/
def signout (s : TopicState) (rid : String) : TopicState × SignoutEffects :=
  match List.lookup rid s.sems with
  | some _ =>
    ({ s with sems := s.sems.filter (fun kc => kc.1 != rid) },
      { unlinked := some ("sem-" ++ s.name ++ "-" ++ rid),
        sent := some (rid, "signout") })
  | none => (s, { unlinked := none, sent := none })

/-- Byte width of each dtype in the closed set (`getattr(np, dtype)().nbytes`). -/
def dtypeSizes : List (List Char × Nat) :=
  [("uint8".toList, 1), ("int16".toList, 2), ("int32".toList, 4),
   ("int64".toList, 8), ("float32".toList, 4), ("float64".toList, 8)]

/-- Frame byte count `int(np.prod(shape) * dtype().nbytes)`. -/
def frameBytes (shape : List Nat) (dtype : List Char) : Nat :=
  shape.prod * ((List.lookup dtype dtypeSizes).getD 0)

/-- Publisher construction (memory.py lines 120-137): the four regions
are created (POSIX shared memory is zero-filled) and each region
semaphore comes from `_crea_sem`; the registry starts empty. -/
def initState (name : String) (shape : List Nat) (dtype : List Char) :
    TopicState :=
  { name := name
    ram := List.replicate (frameBytes shape dtype) 0
    stm := List.replicate 8 0
    cnt := 0
    ramSem := crea_sem
    cntSem := crea_sem
    sems := [] }

/-- A quiescent topic state: no reader is inside the critical section
and the `ram` and `cnt` semaphores are free, as the reader/writer lock
invariant guarantees whenever the reader counter is zero. -/
def Quiescent (s : TopicState) : Prop :=
  s.cnt = 0 ∧ s.ramSem = 1 ∧ s.cntSem = 1

/-- Chain a sequence of `write` calls, requiring each to succeed. -/
def writeAll : TopicState → List (List Nat × Nat) → Option TopicState
  | s, [] => some s
  | s, (d, t) :: rest =>
    match write s d t with
    | WriteOutcome.ok s2 => writeAll s2 rest
    | _ => none

/-- The 40-byte record `_serialize` actually produces when the shape
string and dtype name fit their halves: widths 20 and 19 around the
single separator. -/
def metaRecord (shape : List Nat) (dtype : List Char) : List Char :=
  ljustL (joinShape shape) 20 '*' ++ '|' :: ljustL dtype 19 '*'

/-- Modelled from the spec: the metadata byte layout the spec's section
on external interfaces declares, with a first half of width 21, one `|`
separator and a dtype half padded to width 18.  Written only to be
compared against the record the code builds. -/
def specMetaRecord (shape : List Nat) (dtype : List Char) : List Char :=
  ljustL (joinShape shape) 21 '*' ++ '|' :: ljustL dtype 18 '*'

/-! ## Lemmas about the metadata encoding -/

theorem digitChar_isDigit {d : Nat} (h : d < 10) :
    (Nat.digitChar d).isDigit = true := by
  interval_cases d <;> decide

theorem charDigit_digitChar {d : Nat} (h : d < 10) :
    charDigit (Nat.digitChar d) = d := by
  interval_cases d <;> decide

theorem toDecAux_digits (fuel : Nat) :
    ∀ n, ∀ c ∈ toDecAux fuel n, c.isDigit = true := by
  induction fuel with
  | zero => intro n c hc; simp [toDecAux] at hc
  | succ fuel ih =>
    intro n c hc
    by_cases hn : n = 0
    · simp [toDecAux, hn] at hc
    · rw [toDecAux, if_neg hn] at hc
      rcases List.mem_append.mp hc with hc | hc
      · exact ih _ c hc
      · have hd : c = Nat.digitChar (n % 10) := List.mem_singleton.mp hc
        subst hd
        exact digitChar_isDigit (Nat.mod_lt n (by norm_num))

theorem natToDec_digits (n : Nat) : ∀ c ∈ natToDec n, c.isDigit = true := by
  unfold natToDec
  split
  · intro c hc
    have : c = '0' := List.mem_singleton.mp hc
    subst this; decide
  · exact toDecAux_digits n n

theorem natToDec_ne_nil (n : Nat) : natToDec n ≠ [] := by
  unfold natToDec
  split
  · simp
  · next hn =>
    obtain ⟨m, rfl⟩ := Nat.exists_eq_succ_of_ne_zero hn
    rw [toDecAux, if_neg hn]
    simp

theorem foldl_toDecAux (fuel : Nat) :
    ∀ n a, n ≤ fuel →
      (toDecAux fuel n).foldl (fun a c => 10 * a + charDigit c) a
        = a * 10 ^ (toDecAux fuel n).length + n := by
  induction fuel with
  | zero =>
    intro n a h
    interval_cases n
    simp [toDecAux]
  | succ fuel ih =>
    intro n a h
    by_cases hn : n = 0
    · subst hn; simp [toDecAux]
    · rw [toDecAux, if_neg hn, List.foldl_append]
      have hdiv : n / 10 ≤ fuel := by
        have : n / 10 < n := Nat.div_lt_self (Nat.pos_of_ne_zero hn) (by norm_num)
        omega
      rw [ih (n / 10) a hdiv]
      have hmod := Nat.div_add_mod n 10
      simp only [List.foldl_cons, List.foldl_nil, List.length_append,
        List.length_singleton]
      rw [charDigit_digitChar (Nat.mod_lt n (by norm_num))]
      set L := (toDecAux fuel (n / 10)).length with hL
      calc 10 * (a * 10 ^ L + n / 10) + n % 10
          = a * (10 ^ L * 10) + (10 * (n / 10) + n % 10) := by ring
        _ = a * 10 ^ (L + 1) + n := by rw [pow_succ, hmod]

theorem decToNat_natToDec (n : Nat) : decToNat (natToDec n) = some n := by
  by_cases hn : n = 0
  · subst hn; decide
  · have hne : natToDec n ≠ [] := natToDec_ne_nil n
    have hdig : (natToDec n).all Char.isDigit = true :=
      List.all_eq_true.mpr (fun c hc => natToDec_digits n c hc)
    rw [decToNat, if_neg hne, if_pos hdig]
    unfold natToDec
    rw [if_neg hn, foldl_toDecAux n n 0 le_rfl]
    simp

theorem parseDims_map_natToDec (shape : List Nat) :
    parseDims (shape.map natToDec) = some shape := by
  induction shape with
  | nil => rfl
  | cons n rest ih => simp [parseDims, decToNat_natToDec, ih]

theorem joinShape_chars (shape : List Nat) :
    ∀ c ∈ joinShape shape, c = 'x' ∨ c.isDigit = true := by
  induction shape with
  | nil => intro c hc; simp [joinShape] at hc
  | cons n rest ih =>
    cases rest with
    | nil =>
      intro c hc
      rw [joinShape] at hc
      exact Or.inr (natToDec_digits n c hc)
    | cons m rest2 =>
      intro c hc
      have hje : joinShape (n :: m :: rest2)
          = natToDec n ++ 'x' :: joinShape (m :: rest2) := rfl
      rw [hje] at hc
      rcases List.mem_append.mp hc with hc | hc
      · exact Or.inr (natToDec_digits n c hc)
      · rcases List.mem_cons.mp hc with rfl | hc
        · exact Or.inl rfl
        · exact ih c hc

theorem x_not_mem_natToDec (n : Nat) : 'x' ∉ natToDec n := by
  intro hm
  exact absurd (natToDec_digits n 'x' hm) (by decide)

theorem star_not_mem_joinShape (shape : List Nat) : '*' ∉ joinShape shape := by
  intro hm
  rcases joinShape_chars shape '*' hm with he | hd
  · exact absurd he (by decide)
  · exact absurd hd (by decide)

theorem bar_not_mem_joinShape (shape : List Nat) : '|' ∉ joinShape shape := by
  intro hm
  rcases joinShape_chars shape '|' hm with he | hd
  · exact absurd he (by decide)
  · exact absurd hd (by decide)

theorem splitOnChar_ne_nil (c : Char) (l : List Char) : splitOnChar c l ≠ [] := by
  cases l with
  | nil => simp [splitOnChar]
  | cons a as =>
    rw [splitOnChar]
    cases hsp : splitOnChar c as with
    | nil => simp
    | cons hh tt => by_cases hac : a = c <;> simp [hac]

theorem splitOnChar_of_not_mem {c : Char} {l : List Char} (h : c ∉ l) :
    splitOnChar c l = [l] := by
  induction l with
  | nil => rfl
  | cons a as ih =>
    have ha : a ≠ c := by
      rintro rfl
      exact h (List.mem_cons_self _ _)
    have has : c ∉ as := fun hm => h (List.mem_cons_of_mem _ hm)
    rw [splitOnChar, ih has]
    simp [ha]

theorem splitOnChar_append {c : Char} (a b : List Char) (h : c ∉ a) :
    splitOnChar c (a ++ c :: b) = a :: splitOnChar c b := by
  induction a with
  | nil =>
    simp only [List.nil_append]
    rw [splitOnChar]
    cases hb : splitOnChar c b with
    | nil => exact absurd hb (splitOnChar_ne_nil c b)
    | cons hh tt => simp
  | cons x xs ih =>
    have hx : x ≠ c := by
      rintro rfl
      exact h (List.mem_cons_self _ _)
    have hxs : c ∉ xs := fun hm => h (List.mem_cons_of_mem _ hm)
    rw [List.cons_append, splitOnChar, ih hxs]
    simp [hx]

theorem splitOnChar_joinShape {shape : List Nat} (h : shape ≠ []) :
    splitOnChar 'x' (joinShape shape) = shape.map natToDec := by
  induction shape with
  | nil => cases h rfl
  | cons n rest ih =>
    cases rest with
    | nil =>
      rw [joinShape]
      rw [splitOnChar_of_not_mem (x_not_mem_natToDec n)]
      rfl
    | cons m rest2 =>
      have hje : joinShape (n :: m :: rest2)
          = natToDec n ++ 'x' :: joinShape (m :: rest2) := rfl
      rw [hje, splitOnChar_append _ _ (x_not_mem_natToDec n),
        ih (by simp)]
      rfl

theorem filter_replicate_star (k : Nat) :
    (List.replicate k '*').filter (fun c => c != '*') = [] := by
  induction k with
  | zero => rfl
  | succ k ih => simp [List.replicate_succ, List.filter, ih]

theorem filter_star_ljustL {l : List Char} (w : Nat)
    (h : ∀ c ∈ l, c ≠ '*') :
    (ljustL l w '*').filter (fun c => c != '*') = l := by
  rw [ljustL, List.filter_append, filter_replicate_star, List.append_nil]
  rw [List.filter_eq_self]
  intro c hc
  simpa using h c hc

theorem ljustL_length {l : List Char} {w : Nat} (h : l.length ≤ w) (c : Char) :
    (ljustL l w c).length = w := by
  simp only [ljustL, List.length_append, List.length_replicate]
  omega

theorem serializeMeta_eq (shape : List Nat) (dtype : List Char)
    (h1 : (joinShape shape).length ≤ 20) (h2 : dtype.length ≤ 19) :
    serializeMeta shape dtype = some (metaRecord shape dtype) := by
  have hfill : numbers_sum 40 2 = [20, 20] := rfl
  rw [serializeMeta]
  simp only [hfill, List.headD_cons, List.getLastD_cons, List.getLastD_nil]
  have hlen : (ljustL (joinShape shape) 20 '*'
      ++ '|' :: ljustL dtype (20 - 1) '*').length = 40 := by
    simp only [List.length_append, List.length_cons,
      ljustL_length h1, ljustL_length (show dtype.length ≤ 20 - 1 by omega)]
  rw [if_pos hlen]
  rfl

theorem deserializeMeta_metaRecord (shape : List Nat) (dtype : List Char)
    (h0 : shape ≠ []) (hd2 : '|' ∉ dtype) (hd3 : '*' ∉ dtype) :
    deserializeMeta (metaRecord shape dtype)
      = if npHasAttr dtype then some (shape, dtype) else none := by
  have hjstar : ∀ c ∈ joinShape shape, c ≠ '*' := by
    intro c hc he
    exact star_not_mem_joinShape shape (he ▸ hc)
  have hdstar : ∀ c ∈ dtype, c ≠ '*' := by
    intro c hc he
    exact hd3 (he ▸ hc)
  have hfilter : (metaRecord shape dtype).filter (fun c => c != '*')
      = joinShape shape ++ '|' :: dtype := by
    rw [metaRecord, List.filter_append, filter_star_ljustL _ hjstar]
    simp [List.filter_cons, filter_star_ljustL 19 hdstar]
  rw [deserializeMeta, hfilter,
    splitOnChar_append _ _ (bar_not_mem_joinShape shape),
    splitOnChar_of_not_mem hd2]
  simp only [splitOnChar_joinShape h0, parseDims_map_natToDec shape]

/-! ## Lemmas about the topic state machine -/

theorem fromLEBytes_toLEBytes (k : Nat) :
    ∀ n, n < 256 ^ k → fromLEBytes (toLEBytes k n) = n := by
  induction k with
  | zero =>
    intro n h
    interval_cases n
    rfl
  | succ k ih =>
    intro n h
    have hdiv : n / 256 < 256 ^ k := by
      rw [Nat.div_lt_iff_lt_mul (by norm_num)]
      rw [pow_succ] at h
      exact h
    rw [toLEBytes]
    simp only [fromLEBytes, List.foldr_cons]
    rw [show (toLEBytes k (n / 256)).foldr (fun b acc => b + 256 * acc) 0
        = fromLEBytes (toLEBytes k (n / 256)) from rfl]
    rw [ih _ hdiv]
    omega

theorem lookup_fanout (rid : String) (sems : List (String × Nat)) :
    List.lookup rid (fanout sems)
      = (List.lookup rid sems).map (fun v => if 0 < v then v else v + 1) := by
  induction sems with
  | nil => rfl
  | cons kc rest ih =>
    obtain ⟨k, v⟩ := kc
    have ih2 : List.lookup rid
        (rest.map (fun kc => if 0 < kc.2 then kc else (kc.1, kc.2 + 1)))
        = (List.lookup rid rest).map (fun v => if 0 < v then v else v + 1) := by
      rw [← fanout]
      exact ih
    rw [fanout, List.map_cons]
    by_cases h0 : 0 < v
    · rw [if_pos h0]
      cases hk : (rid == k) <;> simp [List.lookup, hk, h0, ih2]
    · rw [if_neg h0]
      cases hk : (rid == k) <;> simp [List.lookup, hk, h0, ih2]

theorem lookup_setSem_self (sems : List (String × Nat)) (rid : String) (v : Nat) :
    List.lookup rid (setSem sems rid v)
      = (List.lookup rid sems).map (fun _ => v) := by
  induction sems with
  | nil => rfl
  | cons kc rest ih =>
    obtain ⟨k, w⟩ := kc
    have ih2 : List.lookup rid
        (rest.map (fun kc => if kc.1 = rid then (kc.1, v) else kc))
        = (List.lookup rid rest).map (fun _ => v) := by
      rw [← setSem]
      exact ih
    rw [setSem, List.map_cons]
    by_cases hk : k = rid
    · subst hk
      rw [if_pos rfl]
      simp [List.lookup, ih2]
    · rw [if_neg hk]
      have hbk : (rid == k) = false :=
        beq_eq_false_iff_ne.mpr (fun he => hk he.symm)
      simp [List.lookup, hbk, ih2]

theorem lookup_append_of_none {sems : List (String × Nat)} {rid : String}
    (h : List.lookup rid sems = none) (l2 : List (String × Nat)) :
    List.lookup rid (sems ++ l2) = List.lookup rid l2 := by
  induction sems with
  | nil => simp
  | cons kc rest ih =>
    obtain ⟨k, w⟩ := kc
    cases hk : (rid == k) with
    | true => simp [List.lookup, hk] at h
    | false =>
      rw [List.lookup, hk] at h
      rw [List.cons_append, List.lookup, hk]
      exact ih h

theorem lookup_dictInsert (sems : List (String × Nat)) (rid : String) (v : Nat) :
    List.lookup rid (dictInsert sems rid v) = some v := by
  cases hs : List.lookup rid sems with
  | some w =>
    rw [dictInsert, if_pos (by rw [hs]; rfl), lookup_setSem_self, hs]
    rfl
  | none =>
    rw [dictInsert, if_neg (by rw [hs]; simp), lookup_append_of_none hs]
    simp [List.lookup]

theorem write_ok (s : TopicState) (d : List Nat) (t : Nat)
    (hsem : s.ramSem = 1) (hlen : d.length = s.ram.length) (ht : t < 2 ^ 64) :
    write s d t
      = .ok { s with ram := d, stm := toLEBytes 8 t, sems := fanout s.sems } := by
  simp only [write]
  rw [if_neg (show ¬ s.ramSem = 0 by omega),
    if_neg (show ¬ d.length ≠ s.ram.length from not_not_intro hlen),
    if_neg (show ¬ 2 ^ 64 ≤ t by omega)]
  rw [hsem]

theorem read_ok (s : TopicState) (rid : String) (w : Nat)
    (hq : Quiescent s) (hl : List.lookup rid s.sems = some w) (hw : w ≠ 0) :
    read s rid
      = (.ok s.ram (fromLEBytes s.stm)
          { s with sems := setSem s.sems rid (w - 1) },
        [REvent.acquireWake, .acquireCnt, .incCnt, .acquireFrame, .releaseCnt,
         .viewFrame, .readStm, .acquireCnt, .decCnt, .releaseFrame,
         .releaseCnt, .copyFrame]) := by
  obtain ⟨hc, hr, hn⟩ := hq
  have h1 : wrap32 1 = 1 := by decide
  have h2 : wrap32 ((1 : Int) - 1) = 0 := by decide
  have h3 : wrap32 0 = 0 := by decide
  rw [read, hl]
  simp [hw, hc, hr, hn, h1, h2, h3]

theorem quiescent_signin (s : TopicState) (rid : String)
    (hq : Quiescent s) : Quiescent (signin s rid) := hq

theorem writeAll_last (ws : List (List Nat × Nat)) (d : List Nat) (t : Nat) :
    ∀ s : TopicState, Quiescent s →
      (∀ p ∈ ws, p.1.length = s.ram.length ∧ p.2 < 2 ^ 64) →
      d.length = s.ram.length → t < 2 ^ 64 →
      ∃ s2, writeAll s (ws ++ [(d, t)]) = some s2 ∧ Quiescent s2 ∧
        s2.ram = d ∧ s2.stm = toLEBytes 8 t ∧
        ∀ rid w, List.lookup rid s.sems = some w →
          ∃ w2, List.lookup rid s2.sems = some w2 ∧ w2 ≠ 0 := by
  induction ws with
  | nil =>
    intro s hq _ hd ht
    refine ⟨{ s with ram := d, stm := toLEBytes 8 t, sems := fanout s.sems },
      ?_, hq, rfl, rfl, ?_⟩
    · simp only [List.nil_append, writeAll]
      rw [write_ok s d t hq.2.1 hd ht]
    · intro rid w hlw
      refine ⟨if 0 < w then w else w + 1, ?_, ?_⟩
      · show List.lookup rid (fanout s.sems) = _
        rw [lookup_fanout, hlw]
        rfl
      · split <;> omega
  | cons p rest ih =>
    intro s hq hws hd ht
    obtain ⟨d0, t0⟩ := p
    have hp := hws (d0, t0) (List.mem_cons_self _ _)
    have hw0 : write s d0 t0
        = .ok { s with ram := d0, stm := toLEBytes 8 t0, sems := fanout s.sems } :=
      write_ok s d0 t0 hq.2.1 hp.1 hp.2
    obtain ⟨s2, hwa, hq2, hram, hstm, hsems⟩ :=
      ih { s with ram := d0, stm := toLEBytes 8 t0, sems := fanout s.sems } hq
        (fun q hq2 => ⟨by
          show q.1.length = d0.length
          rw [hp.1]
          exact (hws q (List.mem_cons_of_mem _ hq2)).1,
          (hws q (List.mem_cons_of_mem _ hq2)).2⟩)
        (by
          show d.length = d0.length
          rw [hp.1]
          exact hd) ht
    refine ⟨s2, ?_, hq2, hram, hstm, ?_⟩
    · rw [List.cons_append, writeAll, hw0]
      exact hwa
    · intro rid w hlw
      refine hsems rid (if 0 < w then w else w + 1) ?_
      show List.lookup rid (fanout s.sems) = _
      rw [lookup_fanout, hlw]
      rfl

/-! ## Concrete topic used by the witnesses -/

/-- A small quiescent topic: a 4-byte frame, zeroed timestamp, one
registered subscriber `aaaa` whose wake semaphore count is 1. -/
def baseState : TopicState :=
  { name := "t1", ram := [0, 0, 0, 0], stm := List.replicate 8 0, cnt := 0,
    ramSem := 1, cntSem := 1, sems := [("aaaa", 1)] }

/-! ## The claims -/

/-- C1: in a topic state with reader counter zero (hence, by the lock
invariant, free `ram` and `cnt` semaphores) and a registered subscriber
whose wake semaphore is available, after any nonempty sequence of
successful writes (correct payload length, timestamp below `2^64`) a
`read` executed before any further write returns exactly the last
written payload bytes and the last written timestamp. -/
theorem c1_read_after_writes_returns_last (s : TopicState) (rid : String)
    (w : Nat) (ws : List (List Nat × Nat)) (d : List Nat) (t : Nat)
    (hq : Quiescent s) (hl : List.lookup rid s.sems = some w) (_hw : w ≠ 0)
    (hws : ∀ p ∈ ws, p.1.length = s.ram.length ∧ p.2 < 2 ^ 64)
    (hd : d.length = s.ram.length) (ht : t < 2 ^ 64) :
    ∃ s2, writeAll s (ws ++ [(d, t)]) = some s2 ∧
      ∃ s3, (read s2 rid).1 = ReadOutcome.ok d t s3 := by
  obtain ⟨s2, hwa, hq2, hram, hstm, hsems⟩ := writeAll_last ws d t s hq hws hd ht
  obtain ⟨w2, hl2, hw2⟩ := hsems rid w hl
  have ht2 : t < 256 ^ 8 := by
    have h2 := ht
    norm_num at h2 ⊢
    exact h2
  refine ⟨s2, hwa, { s2 with sems := setSem s2.sems rid (w2 - 1) }, ?_⟩
  rw [read_ok s2 rid w2 hq2 hl2 hw2, hram, hstm,
    fromLEBytes_toLEBytes 8 t ht2]

/-- Witness for C1: two writes into `baseState`, then one read; the
read returns the second payload and timestamp. -/
theorem c1_witness :
    Quiescent baseState ∧ List.lookup "aaaa" baseState.sems = some 1 ∧
    ∃ s2, writeAll baseState ([([9, 9, 9, 9], 5)] ++ [([1, 2, 3, 4], 1000)])
        = some s2 ∧
      ∃ s3, (read s2 "aaaa").1 = ReadOutcome.ok [1, 2, 3, 4] 1000 s3 :=
  ⟨⟨rfl, rfl, rfl⟩, by decide,
    c1_read_after_writes_returns_last baseState "aaaa" 1
      [([9, 9, 9, 9], 5)] [1, 2, 3, 4] 1000 ⟨rfl, rfl, rfl⟩ (by decide)
      (by decide) (by decide) (by decide) (by decide)⟩

/-- C2 (amended): the metadata round trip holds for every non-empty
shape of positive integers with at most 4 dimensions and every dtype of
the closed set, provided additionally that the `x`-joined decimal shape
string is at most 20 characters; without that bound `_serialize` raises
(the 40-byte region assignment fails), see the counterexample. -/
theorem c2_metadata_round_trip (shape : List Nat) (dtype : List Char)
    (h0 : shape ≠ []) (_h1 : shape.length ≤ 4) (_h2 : ∀ n ∈ shape, 0 < n)
    (h3 : dtype ∈ closedDtypeSet) (h4 : (joinShape shape).length ≤ 20) :
    ∃ r, serializeMeta shape dtype = some r ∧
      deserializeMeta r = some (shape, dtype) := by
  have hprops : dtype.length ≤ 19 ∧ '|' ∉ dtype ∧ '*' ∉ dtype
      ∧ npHasAttr dtype = true := by
    simp only [closedDtypeSet, List.map, List.mem_cons,
      List.not_mem_nil, or_false] at h3
    rcases h3 with rfl | rfl | rfl | rfl | rfl | rfl <;>
      exact ⟨by decide, by decide, by decide, by decide⟩
  obtain ⟨hd1, hd2, hd3, hnp⟩ := hprops
  refine ⟨metaRecord shape dtype, serializeMeta_eq shape dtype h4 hd1, ?_⟩
  rw [deserializeMeta_metaRecord shape dtype h0 hd2 hd3, if_pos hnp]

/-- Witness for C2: shape `[2, 2]`, dtype `uint8`. -/
theorem c2_witness :
    ([2, 2] : List Nat) ≠ [] ∧ "uint8".toList ∈ closedDtypeSet ∧
    (joinShape [2, 2]).length ≤ 20 ∧
    ∃ r, serializeMeta [2, 2] ("uint8".toList) = some r ∧
      deserializeMeta r = some ([2, 2], "uint8".toList) :=
  ⟨by decide, by decide, by decide,
    c2_metadata_round_trip [2, 2] ("uint8".toList) (by decide) (by decide)
      (by decide) (by decide) (by decide)⟩

/-- Counterexample for C2 as stated: the one-dimensional shape
`[10^20]` consists of positive integers and has length at most 4, yet
its 21 decimal digits do not fit the 20-character first half, so
`_serialize` fails (the encoded string is 41 bytes and the assignment
into the 40-byte region raises `ValueError`) and no round trip exists. -/
theorem c2_counterexample :
    serializeMeta [100000000000000000000] ("uint8".toList) = none ∧
    ([100000000000000000000] : List Nat) ≠ [] ∧
    ([100000000000000000000] : List Nat).length ≤ 4 ∧
    (∀ n ∈ ([100000000000000000000] : List Nat), 0 < n) ∧
    "uint8".toList ∈ closedDtypeSet := by
  refine ⟨by decide, by decide, by decide, ?_, by decide⟩
  intro n hn
  rw [List.mem_singleton.mp hn]
  norm_num

/-- C3 (code bug): the event trace of a successful `read` on a concrete
quiescent topic. The source follows the claimed order up to the counter
decrement and frame release, but the frame bytes are copied only by the
`data.copy()` inside the `return` expression — the final `copyFrame`
event — strictly after `releaseFrame` and the final `releaseCnt`, not
before `decCnt` as the claim requires. -/
theorem c3_read_trace_copy_after_release :
    (read baseState "aaaa").2
      = [REvent.acquireWake, .acquireCnt, .incCnt, .acquireFrame,
         .releaseCnt, .viewFrame, .readStm, .acquireCnt, .decCnt,
         .releaseFrame, .releaseCnt, .copyFrame] ∧
    (read baseState "aaaa").2.indexOf REvent.decCnt
      < (read baseState "aaaa").2.indexOf REvent.copyFrame ∧
    (read baseState "aaaa").2.indexOf REvent.releaseFrame
      < (read baseState "aaaa").2.indexOf REvent.copyFrame := by
  decide

/-- C4: a `write` whose payload length differs from the frame size
fails with the length-mismatch error (the spec's `ShapeMismatch`; the
memoryview raises before copying a single byte) and leaves the frame
region and the timestamp region exactly as they were. -/
theorem c4_wrong_length_write_regions_unchanged (s : TopicState)
    (d : List Nat) (t : Nat)
    (hsem : ¬ s.ramSem = 0) (hne : d.length ≠ s.ram.length) :
    ∃ s2, write s d t = .err .shapeMismatch s2 ∧
      s2.ram = s.ram ∧ s2.stm = s.stm := by
  refine ⟨{ s with ramSem := s.ramSem - 1 }, ?_, rfl, rfl⟩
  simp only [write]
  rw [if_neg hsem, if_pos hne]

/-- Witness for C4. -/
theorem c4_witness :
    ¬ baseState.ramSem = 0 ∧ [1, 2, 3].length ≠ baseState.ram.length ∧
    ∃ s2, write baseState [1, 2, 3] 7 = .err .shapeMismatch s2 ∧
      s2.ram = baseState.ram ∧ s2.stm = baseState.stm :=
  ⟨by decide, by decide,
    c4_wrong_length_write_regions_unchanged baseState [1, 2, 3] 7
      (by decide) (by decide)⟩

/-- C5 (amended): for every shape and dtype that fit their halves, the
serialized metadata record is exactly 40 bytes: a first half of width
20 carrying the `x`-joined shape digits padded right with `*`, one `|`
separator byte, and a second half carrying the dtype name padded right
with `*` to width 19 — `numbers_sum(40, 2) = [20, 20]`, so the claimed
widths 21 and 18 are off by one each. -/
theorem c5_metadata_layout (shape : List Nat) (dtype : List Char)
    (h1 : (joinShape shape).length ≤ 20) (h2 : dtype.length ≤ 19) :
    serializeMeta shape dtype = some (metaRecord shape dtype) ∧
    (metaRecord shape dtype).length = 40 := by
  refine ⟨serializeMeta_eq shape dtype h1 h2, ?_⟩
  rw [metaRecord]
  simp only [List.length_append, List.length_cons,
    ljustL_length h1, ljustL_length h2]

/-- Witness for C5 (amended). -/
theorem c5_witness :
    (joinShape [2, 2]).length ≤ 20 ∧ ("uint8".toList).length ≤ 19 ∧
    serializeMeta [2, 2] ("uint8".toList)
      = some (metaRecord [2, 2] ("uint8".toList)) ∧
    (metaRecord [2, 2] ("uint8".toList)).length = 40 :=
  ⟨by decide, by decide,
    c5_metadata_layout [2, 2] ("uint8".toList) (by decide) (by decide)⟩

/-- Counterexample for C5 as stated: for shape `(2, 2)` and dtype
`uint8` the record `_serialize` produces differs from the layout with a
21-wide first half and an 18-wide dtype field that the claim
describes (the separator sits at byte 20, not byte 21). -/
theorem c5_counterexample :
    serializeMeta [2, 2] ("uint8".toList)
      ≠ some (specMetaRecord [2, 2] ("uint8".toList)) := by
  decide

/-- C6 (amended): parsing a well-formed metadata record succeeds if and
only if the dtype string resolves as a numpy attribute (`getattr`
succeeds) — a strict superset of the closed six-name set, which is
entirely contained in it; unresolvable strings make `_deserialize`
raise `AttributeError` (there is no `UnsupportedDtype` error in the
code). -/
theorem c6_dtype_parse_superset (shape : List Nat) (dtype : List Char)
    (h0 : shape ≠ []) (hd2 : '|' ∉ dtype) (hd3 : '*' ∉ dtype) :
    deserializeMeta (metaRecord shape dtype)
      = (if npHasAttr dtype then some (shape, dtype) else none) ∧
    closedDtypeSet.all npHasAttr = true :=
  ⟨deserializeMeta_metaRecord shape dtype h0 hd2 hd3, by decide⟩

/-- Witness for C6 (amended): the unknown name `notadtype` parses to
nothing. -/
theorem c6_witness :
    ([2] : List Nat) ≠ [] ∧ '|' ∉ "notadtype".toList ∧
    '*' ∉ "notadtype".toList ∧
    (deserializeMeta (metaRecord [2] ("notadtype".toList))
      = (if npHasAttr ("notadtype".toList)
          then some ([2], "notadtype".toList) else none) ∧
    closedDtypeSet.all npHasAttr = true) :=
  ⟨by decide, by decide, by decide,
    c6_dtype_parse_superset [2] ("notadtype".toList) (by decide) (by decide)
      (by decide)⟩

/-- Counterexample for C6 as stated: `int8` is outside the closed set,
yet `_deserialize` resolves it (numpy has an `int8` attribute) and
parsing succeeds instead of failing. -/
theorem c6_counterexample :
    deserializeMeta (metaRecord [2] ("int8".toList))
      = some ([2], "int8".toList) ∧
    closedDtypeSet.contains ("int8".toList) = false ∧
    serializeMeta [2] ("int8".toList)
      = some (metaRecord [2] ("int8".toList)) := by
  decide

/-- C7: a successful `write` maps the registry by the saturation rule —
wake semaphores with positive count are skipped, the others are
released once — so counts at most 1 stay at most 1. -/
theorem c7_fanout_saturation (s : TopicState) (d : List Nat) (t : Nat)
    (hsem : s.ramSem = 1) (hd : d.length = s.ram.length) (ht : t < 2 ^ 64) :
    ∃ s2, write s d t = WriteOutcome.ok s2 ∧
      s2.sems = s.sems.map (fun kc => if 0 < kc.2 then kc else (kc.1, kc.2 + 1)) ∧
      ((∀ kc ∈ s.sems, kc.2 ≤ 1) → ∀ kc ∈ s2.sems, kc.2 ≤ 1) := by
  refine ⟨_, write_ok s d t hsem hd ht, rfl, ?_⟩
  intro hb kc hkc
  have hkc2 : kc ∈ fanout s.sems := hkc
  rw [fanout] at hkc2
  obtain ⟨kc0, hkc0, rfl⟩ := List.mem_map.mp hkc2
  by_cases h0 : 0 < kc0.2
  · rw [if_pos h0]
    exact hb kc0 hkc0
  · rw [if_neg h0]
    simp only
    omega

/-- Witness for C7: one saturated and one empty wake semaphore. -/
theorem c7_witness :
    (let s0 : TopicState :=
      { name := "t1", ram := [0, 0], stm := List.replicate 8 0, cnt := 0,
        ramSem := 1, cntSem := 1, sems := [("a", 1), ("b", 0)] }
    s0.ramSem = 1 ∧ [5, 6].length = s0.ram.length ∧
    ∃ s2, write s0 [5, 6] 3 = WriteOutcome.ok s2 ∧
      s2.sems = s0.sems.map (fun kc => if 0 < kc.2 then kc else (kc.1, kc.2 + 1)) ∧
      ((∀ kc ∈ s0.sems, kc.2 ≤ 1) → ∀ kc ∈ s2.sems, kc.2 ≤ 1)) :=
  ⟨rfl, by decide,
    c7_fanout_saturation _ [5, 6] 3 rfl (by decide) (by decide)⟩

/-- C8: `signout` of an id that is not a registry key leaves the state
unchanged, unlinks nothing, sends nothing, and raises nothing. -/
theorem c8_signout_unknown_noop (s : TopicState) (rid : String)
    (h : List.lookup rid s.sems = none) :
    signout s rid = (s, { unlinked := none, sent := none }) := by
  rw [signout, h]

/-- Witness for C8. -/
theorem c8_witness :
    List.lookup "zzzz" baseState.sems = none ∧
    signout baseState "zzzz" = (baseState, { unlinked := none, sent := none }) :=
  ⟨by decide, c8_signout_unknown_noop baseState "zzzz" (by decide)⟩

/-- C9: every semaphore `_crea_sem` creates starts at count exactly 1
(created at 0, released once) — in particular the publisher's region
semaphores at init — and after `signin(rid)` on a quiescent topic the
registered wake count is 1, so the very first `read(rid)` acquires it
immediately and returns the current frame without any publication in
between. -/
theorem c9_created_semaphores_start_at_one (s : TopicState) (rid : String)
    (nm : String) (sh : List Nat) (dt : List Char) (hq : Quiescent s) :
    crea_sem = 1 ∧
    (initState nm sh dt).ramSem = 1 ∧ (initState nm sh dt).cntSem = 1 ∧
    List.lookup rid (signin s rid).sems = some crea_sem ∧
    ∃ s3, (read (signin s rid) rid).1
      = ReadOutcome.ok s.ram (fromLEBytes s.stm) s3 := by
  refine ⟨rfl, rfl, rfl, lookup_dictInsert s.sems rid crea_sem, ?_⟩
  refine ⟨{ signin s rid with
    sems := setSem (signin s rid).sems rid (crea_sem - 1) }, ?_⟩
  rw [read_ok (signin s rid) rid crea_sem hq
    (lookup_dictInsert s.sems rid crea_sem) (by decide)]
  rfl

/-- Witness for C9. -/
theorem c9_witness :
    Quiescent baseState ∧
    (crea_sem = 1 ∧
    (initState "t2" [2, 2] ("uint8".toList)).ramSem = 1 ∧
    (initState "t2" [2, 2] ("uint8".toList)).cntSem = 1 ∧
    List.lookup "r1" (signin baseState "r1").sems = some crea_sem ∧
    ∃ s3, (read (signin baseState "r1") "r1").1
      = ReadOutcome.ok baseState.ram (fromLEBytes baseState.stm) s3) :=
  ⟨⟨rfl, rfl, rfl⟩,
    c9_created_semaphores_start_at_one baseState "r1" "t2" [2, 2]
      ("uint8".toList) ⟨rfl, rfl, rfl⟩⟩

/-- C10: on the wrong-length error path, `write` has already acquired
the frame semaphore and raises before releasing it, so the call ends
with the frame semaphore count one lower than before; nothing restores
it. -/
theorem c10_error_path_keeps_frame_semaphore (s : TopicState)
    (d : List Nat) (t : Nat)
    (hsem : ¬ s.ramSem = 0) (hne : d.length ≠ s.ram.length) :
    ∃ s2, write s d t = .err .shapeMismatch s2 ∧
      s2.ramSem = s.ramSem - 1 ∧ s2.ramSem < s.ramSem := by
  refine ⟨{ s with ramSem := s.ramSem - 1 }, ?_, rfl, by
    show s.ramSem - 1 < s.ramSem
    omega⟩
  simp only [write]
  rw [if_neg hsem, if_pos hne]

/-- Witness for C10. -/
theorem c10_witness :
    ¬ baseState.ramSem = 0 ∧ [1, 2, 3].length ≠ baseState.ram.length ∧
    ∃ s2, write baseState [1, 2, 3] 7 = .err .shapeMismatch s2 ∧
      s2.ramSem = baseState.ramSem - 1 ∧ s2.ramSem < baseState.ramSem :=
  ⟨by decide, by decide,
    c10_error_path_keeps_frame_semaphore baseState [1, 2, 3] 7
      (by decide) (by decide)⟩

end Streamem
